import Mathlib

/-!
Verification of the opportunistic HTTP/3 upgrade cache of src/alt_svc.rs.

The shallow embedding below models:
 * moka sync caches built with a per-table time_to_live, as association lists
   of (key, value, insertion time); an entry behaves as absent once
   now - insertedAt reaches the table TTL (moka evaluates expiry lazily on
   get / contains_key).  Capacity-based eviction only removes entries early
   and is not modelled.
 * instants and durations in whole seconds as Nat;
 * reqwest::Url as the triple of fields the code reads (scheme, host,
   explicit port), with port_or_known_default following the url crate;
 * Rust string manipulation (split, trim, split_once, trim_matches,
   str::parse for u16 / u64) on lists of characters;
 * the middleware with its shared cache handle threaded as explicit state and
   the next layer as an opaque function from the outgoing request to a result.
-/

set_option linter.unusedVariables false

/-- Decimal digit character for a value below ten, as produced by Rust
formatting of unsigned integers. -/
def decDigit (n : Nat) : Char :=
  match n with
  | 0 => '0'
  | 1 => '1'
  | 2 => '2'
  | 3 => '3'
  | 4 => '4'
  | 5 => '5'
  | 6 => '6'
  | 7 => '7'
  | 8 => '8'
  | 9 => '9'
  | _ => '*'

/-- Decimal digits of a natural number, least significant first, with explicit
fuel so that the definition is structurally recursive and kernel-reducible. -/
def decDigitsRev (fuel n : Nat) : List Char :=
  match fuel with
  | 0 => []
  | f + 1 => if n < 10 then [decDigit n] else decDigit (n % 10) :: decDigitsRev f (n / 10)

/-- Decimal representation of a natural number, as produced by the format!
macro in the source when building origin keys. -/
def natRepr (n : Nat) : String :=
  String.mk (decDigitsRev (n + 1) n).reverse

/-- One step of parsing a decimal number: fails on a non-digit character. -/
def pushDigit (acc : Option Nat) (c : Char) : Option Nat :=
  match acc with
  | none => none
  | some a => if '0' ≤ c ∧ c ≤ '9' then some (a * 10 + (c.toNat - 48)) else none

/-- Shared part of Rust str::parse for unsigned integers: an optional leading
plus sign followed by one or more ASCII digits; anything else fails. -/
def parseAsciiNat (l : List Char) : Option Nat :=
  let l2 := match l with
    | '+' :: rest => rest
    | _ => l
  match l2 with
  | [] => none
  | _ => l2.foldl pushDigit (some 0)

/-- Model of str::parse::<u64>: decimal, rejecting values that overflow. -/
def parseU64 (l : List Char) : Option Nat :=
  match parseAsciiNat l with
  | some n => if n < 2 ^ 64 then some n else none
  | none => none

/-- Model of str::parse::<u16>: decimal, rejecting values that overflow. -/
def parseU16 (l : List Char) : Option Nat :=
  match parseAsciiNat l with
  | some n => if n < 2 ^ 16 then some n else none
  | none => none

/-- Model of Rust str::split on a single separator character; splitting the
empty string yields one empty piece, as for the Rust iterator. -/
def splitOnChar (sep : Char) : List Char → List (List Char)
  | [] => [[]]
  | c :: rest =>
    if c = sep then [] :: splitOnChar sep rest
    else
      match splitOnChar sep rest with
      | h :: t => (c :: h) :: t
      | [] => [[c]]

/-- Model of Rust str::split_once: split at the first occurrence of the
separator, or fail when the separator does not occur. -/
def splitOnceChar (sep : Char) : List Char → Option (List Char × List Char)
  | [] => none
  | c :: rest =>
    if c = sep then some ([], rest)
    else
      match splitOnceChar sep rest with
      | some (a, b) => some (c :: a, b)
      | none => none

/-- Model of Rust str::trim: remove leading and trailing whitespace. -/
def trimChars (l : List Char) : List Char :=
  ((l.dropWhile Char.isWhitespace).reverse.dropWhile Char.isWhitespace).reverse

/-- Model of Rust str::trim_matches with a single-character pattern: remove
every leading and trailing occurrence of that character. -/
def trimMatchesChar (pat : Char) (l : List Char) : List Char :=
  ((l.dropWhile (fun c => c == pat)).reverse.dropWhile (fun c => c == pat)).reverse

/-- Known default ports of the url crate, used by port_or_known_default. -/
def defaultPort (scheme : String) : Option Nat :=
  if scheme = "http" then some 80
  else if scheme = "https" then some 443
  else if scheme = "ws" then some 80
  else if scheme = "wss" then some 443
  else if scheme = "ftp" then some 21
  else none

/-- Shallow model of reqwest::Url: exactly the fields the alt-svc code reads. -/
structure Url where
  scheme : String
  host : Option String
  port : Option Nat
deriving DecidableEq

/-- Model of Url::host_str. -/
def Url.host_str (u : Url) : Option String := u.host

/-- Model of Url::port_or_known_default: the explicit port if any, else the
scheme's well-known default port. -/
def Url.port_or_known_default (u : Url) : Option Nat :=
  match u.port with
  | some p => some p
  | none => defaultPort u.scheme

/-- A value stored in a moka cache, together with its insertion instant. -/
structure MokaEntry (α : Type) where
  value : α
  insertedAt : Nat
deriving DecidableEq

/-- Lookup in a moka cache built with time_to_live ttl: an entry is returned
only while now < insertedAt + ttl; past that it behaves as absent. -/
def mokaGet {α : Type} (ttl : Nat) (table : List (String × MokaEntry α)) (now : Nat)
    (k : String) : Option α :=
  match table.find? (fun e => e.1 == k) with
  | some e => if now < e.2.insertedAt + ttl then some e.2.value else none
  | none => none

/-- Model of moka Cache::contains_key, which also ignores expired entries. -/
def mokaContains {α : Type} (ttl : Nat) (table : List (String × MokaEntry α)) (now : Nat)
    (k : String) : Bool :=
  (mokaGet ttl table now k).isSome

/-- Model of moka Cache::insert: overwrite any previous entry for the key. -/
def mokaInsert {α : Type} (table : List (String × MokaEntry α)) (now : Nat) (k : String)
    (v : α) : List (String × MokaEntry α) :=
  (k, ⟨v, now⟩) :: table.filter (fun e => !(e.1 == k))

/-- Model of moka Cache::invalidate: drop the entry for the key. -/
def mokaInvalidate {α : Type} (table : List (String × MokaEntry α)) (k : String) :
    List (String × MokaEntry α) :=
  table.filter (fun e => !(e.1 == k))

/-- Mirror of AltSvcEntry in src/alt_svc.rs. -/
structure AltSvcEntry where
  port : Nat
  expires : Nat
deriving DecidableEq

/-- Mirror of AltSvcCache: three moka tables plus the TTLs.  In the source
failed_ttl and capacity exist only as builder configuration of the moka
caches; they are carried here so that the moka TTL semantics is evaluable. -/
structure AltSvcCache where
  advertised : List (String × MokaEntry AltSvcEntry)
  confirmed : List (String × MokaEntry AltSvcEntry)
  failed : List (String × MokaEntry Unit)
  advertised_ttl : Nat
  confirmed_ttl : Nat
  failed_ttl : Nat
  capacity : Nat
deriving DecidableEq

/-- Mirror of AltSvcCache::new: three empty tables with the given TTLs. -/
def AltSvcCache.new (advertised_ttl confirmed_ttl failed_ttl capacity : Nat) : AltSvcCache :=
  ⟨[], [], [], advertised_ttl, confirmed_ttl, failed_ttl, capacity⟩

/-- Mirror of AltSvcCache::origin_key: scheme://host:port with the effective
port, or None when the URL has no host or no derivable port. -/
def origin_key (url : Url) : Option String :=
  match url.host_str with
  | none => none
  | some host =>
    match url.port_or_known_default with
    | none => none
    | some port => some (url.scheme ++ "://" ++ host ++ ":" ++ natRepr port)

/-- Mirror of AltSvcCache::record_alt_svc. -/
def AltSvcCache.record_alt_svc (c : AltSvcCache) (now : Nat) (url : Url) (h3_port : Nat)
    (max_age : Option Nat) : AltSvcCache :=
  match origin_key url with
  | none => c
  | some origin =>
    if mokaContains c.failed_ttl c.failed now origin then c
    else if mokaContains c.confirmed_ttl c.confirmed now origin then c
    else
      let ttl := max_age.getD c.advertised_ttl
      { c with advertised := mokaInsert c.advertised now origin ⟨h3_port, now + ttl⟩ }

/-- Duration::from_hours(10000) in seconds, the "forever" expiry of add_hint. -/
def foreverSecs : Nat := 36000000

/-- Mirror of AltSvcCache::add_hint. -/
def AltSvcCache.add_hint (c : AltSvcCache) (now : Nat) (host : String) (port : Nat) :
    AltSvcCache :=
  let origin := "https://" ++ host ++ ":" ++ natRepr port
  if mokaContains c.failed_ttl c.failed now origin then c
  else { c with advertised := mokaInsert c.advertised now origin ⟨port, now + foreverSecs⟩ }

/-- Mirror of AltSvcCache::should_use_h3.  Note the fall-through of the
source: when the confirmed entry is still in the table but its expires field
has passed, the advertised table is consulted next. -/
def AltSvcCache.should_use_h3 (c : AltSvcCache) (now : Nat) (url : Url) : Option Nat :=
  match origin_key url with
  | none => none
  | some origin =>
    if mokaContains c.failed_ttl c.failed now origin then none
    else
      match mokaGet c.confirmed_ttl c.confirmed now origin with
      | some entry =>
        if now < entry.expires then some entry.port
        else
          match mokaGet c.advertised_ttl c.advertised now origin with
          | some e2 => if now < e2.expires then some e2.port else none
          | none => none
      | none =>
        match mokaGet c.advertised_ttl c.advertised now origin with
        | some e2 => if now < e2.expires then some e2.port else none
        | none => none

/-- Mirror of AltSvcCache::confirm_h3.  The port selection uses plain moka
get on the advertised and confirmed tables: the expires field of the entries
is not consulted here. -/
def AltSvcCache.confirm_h3 (c : AltSvcCache) (now : Nat) (url : Url) : AltSvcCache :=
  match origin_key url with
  | none => c
  | some origin =>
    match mokaGet c.advertised_ttl c.advertised now origin with
    | some entry =>
      { c with
        advertised := mokaInvalidate c.advertised origin,
        confirmed := mokaInsert c.confirmed now origin ⟨entry.port, now + c.confirmed_ttl⟩ }
    | none =>
      match mokaGet c.confirmed_ttl c.confirmed now origin with
      | some entry =>
        { c with confirmed := mokaInsert c.confirmed now origin ⟨entry.port, now + c.confirmed_ttl⟩ }
      | none =>
        let fallback : AltSvcEntry := ⟨(url.port_or_known_default).getD 443, now + c.confirmed_ttl⟩
        { c with confirmed := mokaInsert c.confirmed now origin fallback }

/-- Mirror of AltSvcCache::record_h3_failure. -/
def AltSvcCache.record_h3_failure (c : AltSvcCache) (now : Nat) (url : Url) : AltSvcCache :=
  match origin_key url with
  | none => c
  | some origin =>
    { c with
      advertised := mokaInvalidate c.advertised origin,
      confirmed := mokaInvalidate c.confirmed origin,
      failed := mokaInsert c.failed now origin () }

/-- Port of an entry that is live in every sense at the given time: still
within the table TTL and with its expires timestamp in the future.  This is
the liveness filter applied by should_use_h3. -/
def liveEntryPort (ttl : Nat) (table : List (String × MokaEntry AltSvcEntry)) (now : Nat)
    (k : String) : Option Nat :=
  match mokaGet ttl table now k with
  | some e => if now < e.expires then some e.port else none
  | none => none

/-- Accumulator of the inner parameter loop of parse_alt_svc_header. -/
structure ParamState where
  protocol_id : Option (List Char)
  port : Option Nat
  max_age : Option Nat
deriving DecidableEq

/-- One iteration of the parameter loop of parse_alt_svc_header. -/
def applyParam (st : ParamState) (p : List Char) : ParamState :=
  let param := trimChars p
  if param = [] then st
  else
    match splitOnceChar '=' param with
    | none => st
    | some (k, v) =>
      let key := trimChars k
      let value := trimMatchesChar '"' (trimChars v)
      if key = "ma".data then
        match parseU64 value with
        | some secs => { st with max_age := some secs }
        | none => st
      else if "h3".data.isPrefixOf key then
        let st2 := { st with protocol_id := some key }
        match splitOnceChar ':' value with
        | some (_, portStr) =>
          match parseU16 portStr with
          | some pn => { st2 with port := some pn }
          | none => st2
        | none => st2
      else st

/-- Result of one comma-separated service entry: a port and optional max-age
when both a fast-transport protocol id and a parseable port were found. -/
def serviceResult (service : List Char) : Option (Nat × Option Nat) :=
  let st := (splitOnChar ';' service).foldl applyParam ⟨none, none, none⟩
  match st.protocol_id, st.port with
  | some _, some p => some (p, st.max_age)
  | _, _ => none

/-- The outer loop of parse_alt_svc_header: first usable entry wins. -/
def findService : List (List Char) → Option (Nat × Option Nat)
  | [] => none
  | s :: rest =>
    let service := trimChars s
    if service = [] then findService rest
    else
      match serviceResult service with
      | some r => some r
      | none => findService rest

/-- Mirror of parse_alt_svc_header. -/
def parse_alt_svc_header (value : String) : Option (Nat × Option Nat) :=
  if value = "clear" then none
  else findService (splitOnChar ',' value.data)

/-- Protocol versions distinguished by the middleware. -/
inductive HttpVersion where
  | http11
  | http2
  | http3
deriving DecidableEq

/-- Shallow model of an outgoing reqwest::Request: its URL and the mutable
protocol-version field. -/
structure Request where
  url : Url
  version : HttpVersion
deriving DecidableEq

/-- Shallow model of a reqwest::Response: its negotiated version and the
alt-svc header value when present and readable as a string. -/
structure Response where
  version : HttpVersion
  altSvcHeader : Option String
deriving DecidableEq

/-- Mirror of AltSvcMiddleware: the enabled flag; the Arc-shared cache is
threaded explicitly through handle. -/
structure AltSvcMiddleware where
  enabled : Bool

/-- Mirror of the Middleware::handle implementation of AltSvcMiddleware.  The
next layer is an opaque function; a transport error carries no data visible
to this code.  The function returns the result handed back to the caller
together with the cache state after the exchange. -/
def AltSvcMiddleware.handle (mw : AltSvcMiddleware) (cache : AltSvcCache) (now : Nat)
    (req : Request) (next : Request → Except Unit Response) :
    Except Unit Response × AltSvcCache :=
  if !mw.enabled then (next req, cache)
  else
    let url := req.url
    let trying_h3 := (cache.should_use_h3 now url).isSome
    let req2 := if trying_h3 then { req with version := HttpVersion.http3 } else req
    let result := next req2
    let cache2 :=
      match result with
      | Except.ok response =>
        let cacheA :=
          if trying_h3 && (response.version == HttpVersion.http3) then
            cache.confirm_h3 now url
          else cache
        match response.altSvcHeader with
        | some value =>
          match parse_alt_svc_header value with
          | some (port, max_age) => cacheA.record_alt_svc now url port max_age
          | none => cacheA
        | none => cacheA
      | Except.error _ =>
        if trying_h3 then cache.record_h3_failure now url else cache
    (result, cache2)

/-- One cache operation together with the instant at which it is applied. -/
inductive CacheOp where
  | recordAltSvc (now : Nat) (url : Url) (port : Nat) (maxAge : Option Nat)
  | addHint (now : Nat) (host : String) (port : Nat)
  | confirmH3 (now : Nat) (url : Url)
  | recordFailure (now : Nat) (url : Url)

/-- Apply one operation to the cache. -/
def applyOp (c : AltSvcCache) : CacheOp → AltSvcCache
  | CacheOp.recordAltSvc now url port maxAge => c.record_alt_svc now url port maxAge
  | CacheOp.addHint now host port => c.add_hint now host port
  | CacheOp.confirmH3 now url => c.confirm_h3 now url
  | CacheOp.recordFailure now url => c.record_h3_failure now url

/-- Apply a sequence of operations left to right. -/
def applyOps (c : AltSvcCache) (ops : List CacheOp) : AltSvcCache :=
  ops.foldl applyOp c

/-- The instant of an operation. -/
def opTime : CacheOp → Nat
  | CacheOp.recordAltSvc now _ _ _ => now
  | CacheOp.addHint now _ _ => now
  | CacheOp.confirmH3 now _ => now
  | CacheOp.recordFailure now _ => now

/-- The operation instants are nondecreasing and bounded below. -/
def chron : Nat → List CacheOp → Bool
  | _, [] => true
  | t, op :: rest => decide (t ≤ opTime op) && chron (opTime op) rest

/-- The instant of the last operation, or the lower bound for none. -/
def endTime : Nat → List CacheOp → Nat
  | t, [] => t
  | _, op :: rest => endTime (opTime op) rest

/-- A Confirmed entry for the origin is still in its table at the instant. -/
def confLive (c : AltSvcCache) (now : Nat) (origin : String) : Bool :=
  mokaContains c.confirmed_ttl c.confirmed now origin

/-- A Failed marker for the origin is still live at the instant. -/
def failLive (c : AltSvcCache) (now : Nat) (origin : String) : Bool :=
  mokaContains c.failed_ttl c.failed now origin

/-- The safety guard for one operation: confirm_h3 must not be applied to an
origin whose Failed marker is live at that moment; every other operation is
unrestricted. -/
def opGuard (c : AltSvcCache) : CacheOp → Bool
  | CacheOp.confirmH3 t url =>
    (match origin_key url with
     | some o => !failLive c t o
     | none => true)
  | _ => true

/-- A sequence is safe when every operation satisfies opGuard in the state
it is applied to. -/
def safeOps : AltSvcCache → List CacheOp → Bool
  | _, [] => true
  | c, op :: rest => opGuard c op && safeOps (applyOp c op) rest

/-- Numeric value of a little-endian digit list, the inverse of
decDigitsRev used to show decimal formatting is injective. -/
def valRevChars : List Char → Nat
  | [] => 0
  | c :: cs => (c.toNat - 48) + 10 * valRevChars cs

/-- The origin key add_hint constructs for the given host and port: always
the https scheme, regardless of caller context. -/
def hintKey (host : String) (port : Nat) : String :=
  "https://" ++ host ++ ":" ++ natRepr port

/-- A fresh cache with small TTLs used to evaluate the model. -/
def cNew : AltSvcCache := AltSvcCache.new 100 100 100 10

/-- Concrete URL https://example.com/... used to evaluate the model. -/
def urlEx : Url := ⟨"https", some "example.com", none⟩

/-- Concrete URL with an explicit non-default port. -/
def urlEx8443 : Url := ⟨"https", some "example.com", some 8443⟩

/-- Concrete http URL for the scheme-separation properties. -/
def urlHttp : Url := ⟨"http", some "example.com", none⟩

/-- The origin key of urlEx. -/
def keyEx : String := "https://example.com:443"

/-- A cache with a live Failed marker for the example origin. -/
def cFailEx : AltSvcCache := (AltSvcCache.new 100 100 300 10).record_h3_failure 0 urlEx

/-- A cache holding a live Confirmed entry at port 8443 for the example
origin, reached by advertising 8443 and confirming it. -/
def cConfEx : AltSvcCache :=
  ((AltSvcCache.new 100 100 100 10).record_alt_svc 0 urlEx 8443 none).confirm_h3 1 urlEx

/-- A cache whose advertised entry for the example origin has an expires
field (instant 10) far earlier than its table TTL (instant 100). -/
def cShortMaEx : AltSvcCache := (AltSvcCache.new 100 200 300 10).record_alt_svc 0 urlEx 9999 (some 10)

/-- cShortMaEx with the advertised table emptied, for comparing how
operations treat the field-expired advertised entry. -/
def cShortMaExPruned : AltSvcCache := { cShortMaEx with advertised := [] }

/-- A failure immediately followed by a confirmation for the same origin. -/
def cFailConfEx : AltSvcCache :=
  ((AltSvcCache.new 100 100 100 10).record_h3_failure 0 urlEx).confirm_h3 1 urlEx

/-- A safe chronological operation sequence: the confirmation happens after
the failure marker has expired (failed_ttl = 100, confirm at 200). -/
def opsEx : List CacheOp := [CacheOp.recordFailure 0 urlEx, CacheOp.confirmH3 200 urlEx]

/-! ### Helper lemmas about the moka cache model -/

theorem strExt {s t : String} (h : s.data = t.data) : s = t := by
  cases s
  cases t
  exact congrArg String.mk h

theorem find?_filter_ne {β : Type} (k k2 : String) (h : k ≠ k2) :
    ∀ l : List (String × β),
      List.find? (fun e => e.1 == k) (l.filter (fun e => !(e.1 == k2))) =
        List.find? (fun e => e.1 == k) l
  | [] => rfl
  | e :: l => by
    by_cases h1 : e.1 = k2
    · have hb : (e.1 == k) = false := by
        simp only [beq_eq_false_iff_ne]
        exact fun hh => h (hh.symm.trans h1)
      have hfb : (e.1 == k2) = true := by simp [h1]
      simp [List.filter_cons, List.find?_cons, hfb, hb, find?_filter_ne k k2 h l]
    · have hb2 : (e.1 == k2) = false := by simp [h1]
      simp only [List.filter_cons, hb2, Bool.not_false, if_true, List.find?_cons]
      by_cases hk : e.1 = k
      · simp [hk]
      · have hb : (e.1 == k) = false := by simp [hk]
        simp [hb, find?_filter_ne k k2 h l]

theorem find?_filter_self {β : Type} (k : String) :
    ∀ l : List (String × β),
      List.find? (fun e => e.1 == k) (l.filter (fun e => !(e.1 == k))) = none
  | [] => rfl
  | e :: l => by
    by_cases h1 : e.1 = k
    · simp only [List.filter_cons, h1, beq_self_eq_true, Bool.not_true, Bool.false_eq_true,
        if_false]
      exact find?_filter_self k l
    · have hb : (e.1 == k) = false := by simp [h1]
      simp only [List.filter_cons, hb, Bool.not_false, if_true, List.find?_cons, hb]
      exact find?_filter_self k l

theorem filter_ne_idem {β : Type} (k : String) (l : List (String × β)) :
    (l.filter (fun e => !(e.1 == k))).filter (fun e => !(e.1 == k)) =
      l.filter (fun e => !(e.1 == k)) := by
  induction l with
  | nil => rfl
  | cons e l ih =>
    by_cases h1 : e.1 = k
    · simp [List.filter_cons, h1, ih]
    · have hb : (e.1 == k) = false := by simp [h1]
      simp [List.filter_cons, hb, ih]

theorem mokaGet_insert_self {α : Type} (ttl : Nat) (tbl : List (String × MokaEntry α))
    (t : Nat) (k : String) (v : α) (now : Nat) :
    mokaGet ttl (mokaInsert tbl t k v) now k = if now < t + ttl then some v else none := by
  simp [mokaGet, mokaInsert, List.find?_cons]

theorem mokaGet_insert_ne {α : Type} (ttl : Nat) (tbl : List (String × MokaEntry α))
    (t : Nat) (k : String) (v : α) (now : Nat) (k2 : String) (h : k2 ≠ k) :
    mokaGet ttl (mokaInsert tbl t k v) now k2 = mokaGet ttl tbl now k2 := by
  have hb : (k == k2) = false := by
    simp only [beq_eq_false_iff_ne]
    exact fun hh => h hh.symm
  simp only [mokaGet, mokaInsert, List.find?_cons, hb]
  rw [find?_filter_ne k2 k h tbl]

theorem mokaGet_invalidate_self {α : Type} (ttl : Nat) (tbl : List (String × MokaEntry α))
    (k : String) (now : Nat) :
    mokaGet ttl (mokaInvalidate tbl k) now k = none := by
  simp [mokaGet, mokaInvalidate, find?_filter_self k tbl]

theorem mokaGet_invalidate_ne {α : Type} (ttl : Nat) (tbl : List (String × MokaEntry α))
    (k : String) (now : Nat) (k2 : String) (h : k2 ≠ k) :
    mokaGet ttl (mokaInvalidate tbl k) now k2 = mokaGet ttl tbl now k2 := by
  simp only [mokaGet, mokaInvalidate]
  rw [find?_filter_ne k2 k h tbl]

theorem mokaGet_earlier {α : Type} {ttl : Nat} {tbl : List (String × MokaEntry α)}
    {now : Nat} {k : String} {v : α} (h : mokaGet ttl tbl now k = some v) {t : Nat}
    (ht : t ≤ now) : mokaGet ttl tbl t k = some v := by
  unfold mokaGet at h ⊢
  cases hf : List.find? (fun e => e.1 == k) tbl with
  | none => rw [hf] at h; exact absurd h (by simp)
  | some e =>
    rw [hf] at h
    by_cases hl : now < e.2.insertedAt + ttl
    · simp only [hl, if_true] at h
      have : t < e.2.insertedAt + ttl := Nat.lt_of_le_of_lt ht hl
      simp [this, h]
    · simp [hl] at h

theorem mokaContains_earlier {α : Type} {ttl : Nat} {tbl : List (String × MokaEntry α)}
    {now : Nat} {k : String} (h : mokaContains ttl tbl now k = true) {t : Nat}
    (ht : t ≤ now) : mokaContains ttl tbl t k = true := by
  unfold mokaContains at h ⊢
  cases hg : mokaGet ttl tbl now k with
  | none => rw [hg] at h; exact absurd h (by simp)
  | some v => rw [mokaGet_earlier hg ht]; rfl

theorem mokaContains_false_later {α : Type} {ttl : Nat} {tbl : List (String × MokaEntry α)}
    {now : Nat} {k : String} (h : mokaContains ttl tbl now k = false) {t : Nat}
    (ht : now ≤ t) : mokaContains ttl tbl t k = false := by
  cases hc : mokaContains ttl tbl t k with
  | false => rfl
  | true => rw [mokaContains_earlier hc ht] at h; exact absurd h (by simp)

theorem isSome_false_none {α : Type} {o : Option α} (h : o.isSome = false) : o = none := by
  cases o
  · rfl
  · exact absurd h (by simp)

theorem mokaInsert_insert_self {α : Type} (tbl : List (String × MokaEntry α))
    (t1 t2 : Nat) (k : String) (v1 v2 : α) :
    mokaInsert (mokaInsert tbl t1 k v1) t2 k v2 = mokaInsert tbl t2 k v2 := by
  simp [mokaInsert, List.filter_cons, filter_ne_idem]

theorem bool_not_true_eq_false {b : Bool} (h : ¬ b = true) : b = false := by
  cases b
  · rfl
  · exact absurd rfl h

/-! ### Claim theorems -/

/-- C2: Failed is dominant.  While a Failed marker for the origin of the URL
is live, record_alt_svc is a no-op (the cache value is unchanged),
should_use_h3 returns none, and consequently any sequence of record_alt_svc
calls performed at instants at which the marker is live leaves the cache
unchanged, so no upgrade is attempted until the marker's TTL elapses. -/
theorem c2_failed_dominant (c : AltSvcCache) (url : Url) (origin : String)
    (hk : origin_key url = some origin) :
    (∀ now p ma, failLive c now origin = true → c.record_alt_svc now url p ma = c) ∧
    (∀ now, failLive c now origin = true → c.should_use_h3 now url = none) ∧
    (∀ calls : List (Nat × Nat × Option Nat),
      (∀ x ∈ calls, failLive c x.1 origin = true) →
      calls.foldl (fun s x => AltSvcCache.record_alt_svc s x.1 url x.2.1 x.2.2) c = c) := by
  have hrec : ∀ now p ma, failLive c now origin = true → c.record_alt_svc now url p ma = c := by
    intro now p ma h
    simp [AltSvcCache.record_alt_svc, hk, failLive] at h ⊢
    simp [h]
  refine ⟨hrec, ?_, ?_⟩
  · intro now h
    simp [failLive] at h
    simp [AltSvcCache.should_use_h3, hk, h]
  · intro calls
    induction calls with
    | nil => intro _; rfl
    | cons x rest ih =>
      intro hall
      have h1 := hrec x.1 x.2.1 x.2.2 (hall x (List.mem_cons_self x rest))
      simp only [List.foldl_cons, h1]
      exact ih (fun y hy => hall y (List.mem_cons_of_mem x hy))

/-- Closed instance of c2_failed_dominant on a cache with a live Failed
marker: a later advertisement is a no-op and the lookup keeps refusing. -/
theorem c2_failed_dominant_witness :
    cFailEx.record_alt_svc 5 urlEx 443 none = cFailEx ∧
      cFailEx.should_use_h3 7 urlEx = none := by
  have h := c2_failed_dominant cFailEx urlEx keyEx (by decide)
  exact ⟨h.1 5 443 none (by decide), h.2.1 7 (by decide)⟩

/-- C3: lookup order of should_use_h3.  With a live Failed marker the answer
is none; otherwise a confirmed entry that is within its table TTL and its
expires timestamp wins; otherwise such an advertised entry wins; otherwise
the answer is none. -/
theorem c3_lookup_order (c : AltSvcCache) (now : Nat) (url : Url) (origin : String)
    (hk : origin_key url = some origin) :
    (failLive c now origin = true → c.should_use_h3 now url = none) ∧
    (failLive c now origin = false →
      ∀ p, liveEntryPort c.confirmed_ttl c.confirmed now origin = some p →
        c.should_use_h3 now url = some p) ∧
    (failLive c now origin = false →
      liveEntryPort c.confirmed_ttl c.confirmed now origin = none →
      ∀ p, liveEntryPort c.advertised_ttl c.advertised now origin = some p →
        c.should_use_h3 now url = some p) ∧
    (failLive c now origin = false →
      liveEntryPort c.confirmed_ttl c.confirmed now origin = none →
      liveEntryPort c.advertised_ttl c.advertised now origin = none →
      c.should_use_h3 now url = none) := by
  refine ⟨?_, ?_, ?_, ?_⟩
  · intro h
    simp [failLive] at h
    simp [AltSvcCache.should_use_h3, hk, h]
  · intro h p hc
    simp only [failLive] at h
    simp only [liveEntryPort] at hc
    simp only [AltSvcCache.should_use_h3, hk, h, Bool.false_eq_true, if_false]
    cases hg : mokaGet c.confirmed_ttl c.confirmed now origin with
    | none => rw [hg] at hc; exact absurd hc (by simp)
    | some e =>
      rw [hg] at hc
      by_cases he : now < e.expires
      · simp only [he, if_true] at hc
        simp [he, hc]
      · simp [he] at hc
  · intro h hc p ha
    simp only [failLive] at h
    simp only [liveEntryPort] at hc ha
    simp only [AltSvcCache.should_use_h3, hk, h, Bool.false_eq_true, if_false]
    have hadv : (match mokaGet c.advertised_ttl c.advertised now origin with
        | some e2 => if now < e2.expires then some e2.port else none
        | none => none) = some p := by
      cases hg : mokaGet c.advertised_ttl c.advertised now origin with
      | none => rw [hg] at ha; exact absurd ha (by simp)
      | some e =>
        rw [hg] at ha
        by_cases he : now < e.expires
        · simp only [he, if_true] at ha
          simp [he, ha]
        · simp [he] at ha
    cases hg : mokaGet c.confirmed_ttl c.confirmed now origin with
    | none => exact hadv
    | some e =>
      rw [hg] at hc
      by_cases he : now < e.expires
      · simp [he] at hc
      · simp only [he, if_false]
        exact hadv
  · intro h hc ha
    simp only [failLive] at h
    simp only [liveEntryPort] at hc ha
    simp only [AltSvcCache.should_use_h3, hk, h, Bool.false_eq_true, if_false]
    have hadv : (match mokaGet c.advertised_ttl c.advertised now origin with
        | some e2 => if now < e2.expires then some e2.port else none
        | none => none) = none := by
      cases hg : mokaGet c.advertised_ttl c.advertised now origin with
      | none => rfl
      | some e =>
        rw [hg] at ha
        by_cases he : now < e.expires
        · simp [he] at ha
        · simp [he]
    cases hg : mokaGet c.confirmed_ttl c.confirmed now origin with
    | none => exact hadv
    | some e =>
      rw [hg] at hc
      by_cases he : now < e.expires
      · simp [he] at hc
      · simp only [he, if_false]
        exact hadv

/-- Closed instance of c3_lookup_order: the veto on a live Failed marker and
the preference for the confirmed port over the advertised one. -/
theorem c3_lookup_order_witness :
    cFailEx.should_use_h3 3 urlEx = none ∧ cConfEx.should_use_h3 2 urlEx = some 8443 := by
  refine ⟨(c3_lookup_order cFailEx 3 urlEx keyEx (by decide)).1 (by decide), ?_⟩
  exact (c3_lookup_order cConfEx 2 urlEx keyEx (by decide)).2.1 (by decide) 8443 (by decide)

/-- C8: with the middleware disabled, handle is a pure passthrough: it leaves
the cache untouched, sends the request with its version field unchanged, and
returns exactly what the next layer produced, independently of the cache. -/
theorem c8_disabled_passthrough (cache : AltSvcCache) (now : Nat) (req : Request)
    (next : Request → Except Unit Response) :
    AltSvcMiddleware.handle ⟨false⟩ cache now req next = (next req, cache) := rfl

/-- C9: record_alt_svc is idempotent up to TTL refresh: a second call with
the same parameters at the same or a later instant produces exactly the state
a single call at the later instant produces. -/
theorem c9_record_idempotent (c : AltSvcCache) (t1 t2 : Nat) (url : Url) (p : Nat)
    (ma : Option Nat) (h : t1 ≤ t2) :
    AltSvcCache.record_alt_svc (c.record_alt_svc t1 url p ma) t2 url p ma =
      c.record_alt_svc t2 url p ma := by
  cases hk : origin_key url with
  | none => simp [AltSvcCache.record_alt_svc, hk]
  | some origin =>
    by_cases hf : mokaContains c.failed_ttl c.failed t1 origin = true
    · have h1 : c.record_alt_svc t1 url p ma = c := by
        simp [AltSvcCache.record_alt_svc, hk, hf]
      rw [h1]
    · have hf1 := bool_not_true_eq_false hf
      by_cases hc : mokaContains c.confirmed_ttl c.confirmed t1 origin = true
      · have h1 : c.record_alt_svc t1 url p ma = c := by
          simp [AltSvcCache.record_alt_svc, hk, hf1, hc]
        rw [h1]
      · have hc1 := bool_not_true_eq_false hc
        have hf2 := mokaContains_false_later hf1 h
        have hc2 := mokaContains_false_later hc1 h
        have h1 : c.record_alt_svc t1 url p ma =
            { c with advertised := mokaInsert c.advertised t1 origin ⟨p, t1 + ma.getD c.advertised_ttl⟩ } := by
          simp [AltSvcCache.record_alt_svc, hk, hf1, hc1]
        rw [h1]
        simp [AltSvcCache.record_alt_svc, hk, hf2, hc2, mokaInsert_insert_self]

/-- Closed instance of c9_record_idempotent at instants 3 and 5. -/
theorem c9_record_idempotent_witness :
    AltSvcCache.record_alt_svc
        ((AltSvcCache.new 100 100 100 10).record_alt_svc 3 urlEx 443 none) 5 urlEx 443 none =
      (AltSvcCache.new 100 100 100 10).record_alt_svc 5 urlEx 443 none :=
  c9_record_idempotent (AltSvcCache.new 100 100 100 10) 3 5 urlEx 443 none (by decide)

/-- C4 (amended): the port confirm_h3 installs is the port of an advertised
entry still within its table TTL (which is then invalidated); else the port
of a confirmed entry still within its table TTL; else the URL's effective
port (its explicit port or the scheme's known default), not the scheme's
default port.  The installed Confirmed entry expires at now + confirmed_ttl. -/
theorem c4_confirm_selection (c : AltSvcCache) (now : Nat) (url : Url) (origin : String)
    (hk : origin_key url = some origin) :
    (∀ e, mokaGet c.advertised_ttl c.advertised now origin = some e →
      c.confirm_h3 now url =
        { c with
          advertised := mokaInvalidate c.advertised origin,
          confirmed := mokaInsert c.confirmed now origin ⟨e.port, now + c.confirmed_ttl⟩ }) ∧
    (∀ e, mokaGet c.advertised_ttl c.advertised now origin = none →
      mokaGet c.confirmed_ttl c.confirmed now origin = some e →
      c.confirm_h3 now url =
        { c with confirmed := mokaInsert c.confirmed now origin ⟨e.port, now + c.confirmed_ttl⟩ }) ∧
    (∀ ep, mokaGet c.advertised_ttl c.advertised now origin = none →
      mokaGet c.confirmed_ttl c.confirmed now origin = none →
      url.port_or_known_default = some ep →
      c.confirm_h3 now url =
        { c with confirmed := mokaInsert c.confirmed now origin ⟨ep, now + c.confirmed_ttl⟩ }) := by
  refine ⟨?_, ?_, ?_⟩
  · intro e ha
    simp [AltSvcCache.confirm_h3, hk, ha]
  · intro e ha hc
    simp [AltSvcCache.confirm_h3, hk, ha, hc]
  · intro ep ha hc hp
    simp [AltSvcCache.confirm_h3, hk, ha, hc, hp]

/-- Counterexample to C4 as stated: confirming a fresh https origin carrying
an explicit port installs a Confirmed entry at the URL's effective port 8443,
not at the scheme's default port 443. -/
theorem c4_counterexample :
    mokaGet 100 (cNew.confirm_h3 0 urlEx8443).confirmed 1 ("https://example.com:8443") =
        some ⟨8443, 100⟩ ∧
      defaultPort urlEx8443.scheme = some 443 := by decide

/-- Closed instance of c4_confirm_selection: confirming a fresh origin with
no advertised or confirmed entry installs the URL's effective port. -/
theorem c4_confirm_selection_witness :
    cNew.confirm_h3 0 urlEx =
      { cNew with confirmed := mokaInsert cNew.confirmed 0 keyEx ⟨443, 100⟩ } :=
  (c4_confirm_selection cNew 0 urlEx keyEx (by decide)).2.2 443 (by decide) (by decide) (by decide)

/-- C5 (amended): when no Failed marker is live for the hinted https origin
and no Confirmed entry is live for it (and the advertised table's TTL is
positive), add_hint installs an Advertised entry whose expires field lies
10000 hours in the future, and should_use_h3 immediately returns the hinted
port for a URL resolving to that origin; when the Failed marker is live,
add_hint is a no-op.  (As the counterexample shows, a live Confirmed entry
at another port overrides the freshly hinted port, so the extra condition is
needed.) -/
theorem c5_add_hint (c : AltSvcCache) (now : Nat) (host : String) (port : Nat) (url : Url)
    (hk : origin_key url = some (hintKey host port))
    (hf : failLive c now (hintKey host port) = false)
    (hconf : liveEntryPort c.confirmed_ttl c.confirmed now (hintKey host port) = none)
    (hattl : 0 < c.advertised_ttl) :
    (c.add_hint now host port).advertised =
        mokaInsert c.advertised now (hintKey host port) ⟨port, now + foreverSecs⟩ ∧
      (c.add_hint now host port).should_use_h3 now url = some port ∧
      (∀ c2 : AltSvcCache,
        failLive c2 now (hintKey host port) = true → c2.add_hint now host port = c2) := by
  simp only [failLive, hintKey] at hf
  have hinstall : c.add_hint now host port =
      { c with advertised := mokaInsert c.advertised now (hintKey host port) ⟨port, now + foreverSecs⟩ } := by
    simp [AltSvcCache.add_hint, hf, hintKey]
  refine ⟨?_, ?_, ?_⟩
  · rw [hinstall]
  · rw [hinstall]
    simp only [AltSvcCache.should_use_h3, hk, mokaContains, hf]
    simp only [liveEntryPort] at hconf
    have hlive : now < now + c.advertised_ttl := Nat.lt_add_of_pos_right hattl
    have hexp : now < now + foreverSecs := by
      have hpos : (0 : Nat) < foreverSecs := by decide
      exact Nat.lt_add_of_pos_right hpos
    have hfn : mokaGet c.failed_ttl c.failed now ("https://" ++ host ++ ":" ++ natRepr port) = none :=
      isSome_false_none hf
    cases hg : mokaGet c.confirmed_ttl c.confirmed now (hintKey host port) with
    | none =>
      simp [hintKey, hg, mokaGet_insert_self, hlive, hexp, mokaContains, hf, hfn]
    | some e =>
      rw [hg] at hconf
      by_cases he : now < e.expires
      · simp [he] at hconf
      · simp [hintKey, hg, he, mokaGet_insert_self, hlive, hexp, mokaContains, hf, hfn]
  · intro c2 h2
    simp only [failLive, hintKey] at h2
    simp [AltSvcCache.add_hint, h2]

/-- Counterexample to C5 as stated: with no live Failed marker but a live
Confirmed entry at port 8443, the lookup right after add_hint(host, 443)
returns the confirmed port 8443, not the hinted port 443. -/
theorem c5_counterexample :
    failLive cConfEx 2 keyEx = false ∧
      (cConfEx.add_hint 2 "example.com" 443).should_use_h3 2 urlEx = some 8443 := by decide

/-- Closed instance of c5_add_hint: a hint on a fresh cache primes the
lookup immediately. -/
theorem c5_add_hint_witness :
    (cNew.add_hint 0 "example.com" 443).should_use_h3 0 urlEx = some 443 :=
  (c5_add_hint cNew 0 "example.com" 443 urlEx (by decide) (by decide) (by decide)
    (by decide)).2.1

/-- C6 (amended): every table access of the cache operations goes through
mokaGet, which never returns an entry past its table TTL; and should_use_h3
additionally never returns a port from an entry whose expires timestamp has
passed.  (As the counterexample shows, confirm_h3 consults only the table
TTL, so the original claim that no operation ever uses an entry past its
expires timestamp fails for confirm_h3.) -/
theorem c6_lazy_expiry :
    (∀ (α : Type) (ttl : Nat) (tbl : List (String × MokaEntry α)) (now : Nat) (k : String)
      (v : α), mokaGet ttl tbl now k = some v →
      ∃ e, List.find? (fun x => x.1 == k) tbl = some e ∧ e.2.value = v ∧
        now < e.2.insertedAt + ttl) ∧
    (∀ (c : AltSvcCache) (now : Nat) (url : Url) (p : Nat),
      c.should_use_h3 now url = some p →
      ∃ origin e, origin_key url = some origin ∧ now < e.expires ∧ e.port = p ∧
        (mokaGet c.confirmed_ttl c.confirmed now origin = some e ∨
          mokaGet c.advertised_ttl c.advertised now origin = some e)) := by
  refine ⟨?_, ?_⟩
  · intro α ttl tbl now k v h
    unfold mokaGet at h
    cases hf : List.find? (fun x => x.1 == k) tbl with
    | none => rw [hf] at h; exact absurd h (by simp)
    | some e =>
      rw [hf] at h
      by_cases hl : now < e.2.insertedAt + ttl
      · simp only [hl, if_true, Option.some.injEq] at h
        exact ⟨e, rfl, h, hl⟩
      · simp [hl] at h
  · intro c now url p h
    unfold AltSvcCache.should_use_h3 at h
    cases hk : origin_key url with
    | none => rw [hk] at h; exact absurd h (by simp)
    | some origin =>
      rw [hk] at h
      by_cases hfl : mokaContains c.failed_ttl c.failed now origin = true
      · simp [hfl] at h
      · have hfl2 := bool_not_true_eq_false hfl
        simp only [hfl2, Bool.false_eq_true, if_false] at h
        have hadv : (match mokaGet c.advertised_ttl c.advertised now origin with
            | some e2 => if now < e2.expires then some e2.port else none
            | none => none) = some p →
            ∃ origin2 e, (some origin : Option String) = some origin2 ∧ now < e.expires ∧
              e.port = p ∧
              (mokaGet c.confirmed_ttl c.confirmed now origin2 = some e ∨
                mokaGet c.advertised_ttl c.advertised now origin2 = some e) := by
          intro hh
          cases ha : mokaGet c.advertised_ttl c.advertised now origin with
          | none => rw [ha] at hh; exact absurd hh (by simp)
          | some e2 =>
            rw [ha] at hh
            by_cases he2 : now < e2.expires
            · simp only [he2, if_true, Option.some.injEq] at hh
              exact ⟨origin, e2, rfl, he2, hh, Or.inr ha⟩
            · simp [he2] at hh
        cases hg : mokaGet c.confirmed_ttl c.confirmed now origin with
        | some entry =>
          rw [hg] at h
          by_cases he : now < entry.expires
          · simp only [he, if_true, Option.some.injEq] at h
            exact ⟨origin, entry, rfl, he, h, Or.inl hg⟩
          · simp only [he, if_false] at h
            exact hadv h
        | none =>
          rw [hg] at h
          exact hadv h

/-- Counterexample to C6 as stated: at instant 50 the advertised entry for
the example origin is past its expires timestamp (10), yet confirm_h3 does
not treat it as absent: it confirms port 9999 from it, producing a different
state than it produces on the same cache with the entry removed. -/
theorem c6_counterexample :
    mokaGet cShortMaEx.advertised_ttl cShortMaEx.advertised 50 keyEx = some ⟨9999, 10⟩ ∧
      ¬ (50 : Nat) < 10 ∧
      cShortMaEx.confirm_h3 50 urlEx ≠ cShortMaExPruned.confirm_h3 50 urlEx := by decide

/-- Closed instance of c6_lazy_expiry on concrete lookups. -/
theorem c6_lazy_expiry_witness :
    (∃ e, List.find? (fun x => x.1 == keyEx) cShortMaEx.advertised = some e ∧
      e.2.value = (⟨9999, 10⟩ : AltSvcEntry) ∧ (50 : Nat) < e.2.insertedAt + 100) ∧
    ∃ origin e, origin_key urlEx = some origin ∧ (2 : Nat) < e.expires ∧ e.port = 8443 ∧
      (mokaGet cConfEx.confirmed_ttl cConfEx.confirmed 2 origin = some e ∨
        mokaGet cConfEx.advertised_ttl cConfEx.advertised 2 origin = some e) :=
  ⟨c6_lazy_expiry.1 AltSvcEntry 100 cShortMaEx.advertised 50 keyEx ⟨9999, 10⟩ (by decide),
    c6_lazy_expiry.2 cConfEx 2 urlEx 8443 (by decide)⟩

/-- C7 (amended): the outer loop of the parser returns the result of the
first comma-separated entry that yields both a fast-transport protocol id
and a parseable port, skipping every earlier entry that yields none and
ignoring everything after the first hit; within an entry an ma parameter
with an unparseable value is skipped leaving the state unchanged, and an h3
parameter with an unparseable port records the protocol id but no port; the
reference input yields port 443 with a max-age of 86400 seconds. -/
theorem c7_parse :
    (∀ (pre : List (List Char)) (s : List Char) (rest : List (List Char)) (r : Nat × Option Nat),
      (∀ p2 ∈ pre, serviceResult (trimChars p2) = none) →
      serviceResult (trimChars s) = some r →
      findService (pre ++ s :: rest) = some r) ∧
    (∀ (st : ParamState) (p2 k v : List Char),
      splitOnceChar '=' (trimChars p2) = some (k, v) →
      trimChars k = "ma".data →
      parseU64 (trimMatchesChar '"' (trimChars v)) = none →
      applyParam st p2 = st) ∧
    (∀ (st : ParamState) (p2 k v pref ps : List Char),
      splitOnceChar '=' (trimChars p2) = some (k, v) →
      trimChars k ≠ "ma".data →
      "h3".data.isPrefixOf (trimChars k) = true →
      splitOnceChar ':' (trimMatchesChar '"' (trimChars v)) = some (pref, ps) →
      parseU16 ps = none →
      applyParam st p2 = { st with protocol_id := some (trimChars k) }) ∧
    parse_alt_svc_header ("h2=\":443\", h3=\":443\"; ma=86400") = some (443, some 86400) := by
  have hemptyService : serviceResult ([] : List Char) = none := rfl
  refine ⟨?_, ?_, ?_, by decide⟩
  · intro pre
    induction pre with
    | nil =>
      intro s rest r hpre hs
      have hne : ¬ trimChars s = [] := by
        intro hh
        rw [hh, hemptyService] at hs
        exact absurd hs (by simp)
      simp only [List.nil_append, findService]
      simp [hne, hs]
    | cons p2 pre ih =>
      intro s rest r hpre hs
      have hp2 := hpre p2 (List.mem_cons_self p2 pre)
      simp only [List.cons_append, findService]
      by_cases hemp : trimChars p2 = []
      · simp only [hemp, if_true]
        exact ih s rest r (fun y hy => hpre y (List.mem_cons_of_mem p2 hy)) hs
      · simp only [hemp, if_false]
        simp only [hp2]
        exact ih s rest r (fun y hy => hpre y (List.mem_cons_of_mem p2 hy)) hs
  · intro st p2 k v hsplit hkey hparse
    have hne : ¬ trimChars p2 = [] := by
      intro hh
      rw [hh] at hsplit
      exact absurd hsplit (by simp [splitOnceChar])
    simp [applyParam, hne, hsplit, hkey, hparse]
  · intro st p2 k v pref ps hsplit hkey hpref hsplit2 hparse
    have hne : ¬ trimChars p2 = [] := by
      intro hh
      rw [hh] at hsplit
      exact absurd hsplit (by simp [splitOnceChar])
    simp [applyParam, hne, hsplit, hkey, hpref, hsplit2, hparse]

/-- Counterexample to C7 as stated: in the input below the first entry whose
protocol identifier starts with h3 yields no parseable port, and instead of
determining the result (none) with all later entries ignored, the parser
takes its answer from the second h3 entry. -/
theorem c7_counterexample :
    parse_alt_svc_header ("h3=\"x\"") = none ∧
      parse_alt_svc_header ("h3=\"x\", h3=\":443\"") = some (443, none) := by decide

/-- Closed instance of c7_parse: first-hit selection over concrete entries
and the two per-parameter skip behaviors. -/
theorem c7_parse_witness :
    findService ([("h2=\":443\"".data)] ++ ("h3=\":443\"; ma=86400".data) ::
        [("h3=\":1\"".data)]) = some (443, some 86400) ∧
      applyParam ⟨none, none, none⟩ ("ma=oops".data) = ⟨none, none, none⟩ ∧
      applyParam ⟨none, none, none⟩ ("h3=\":x\"".data) =
        { (⟨none, none, none⟩ : ParamState) with protocol_id := some (trimChars ("h3".data)) } :=
  ⟨c7_parse.1 [("h2=\":443\"".data)] ("h3=\":443\"; ma=86400".data) [("h3=\":1\"".data)]
      (443, some 86400) (by decide) (by decide),
    c7_parse.2.1 ⟨none, none, none⟩ ("ma=oops".data) ("ma".data) ("oops".data)
      (by decide) (by decide) (by decide),
    c7_parse.2.2.1 ⟨none, none, none⟩ ("h3=\":x\"".data) ("h3".data) ("\":x\"".data)
      ([]) ("x".data) (by decide) (by decide) (by decide) (by decide) (by decide)⟩

theorem decDigit_toNat {n : Nat} (h : n < 10) : (decDigit n).toNat - 48 = n := by
  interval_cases n <;> decide

theorem valRev_decDigitsRev : ∀ (fuel n : Nat), n < fuel →
    valRevChars (decDigitsRev fuel n) = n := by
  intro fuel
  induction fuel with
  | zero => intro n h; omega
  | succ f ih =>
    intro n h
    by_cases h10 : n < 10
    · simp [decDigitsRev, h10, valRevChars, decDigit_toNat h10]
    · have hge : 10 ≤ n := Nat.le_of_not_lt h10
      have hdiv : n / 10 < f := by
        have h1 : n / 10 < n := Nat.div_lt_self (by omega) (by omega)
        omega
      simp only [decDigitsRev, h10, if_false, valRevChars]
      rw [ih (n / 10) hdiv, decDigit_toNat (Nat.mod_lt n (by omega))]
      omega

theorem natRepr_inj {a b : Nat} (h : natRepr a = natRepr b) : a = b := by
  have hd : (decDigitsRev (a + 1) a).reverse = (decDigitsRev (b + 1) b).reverse :=
    congrArg String.data h
  have hdd : decDigitsRev (a + 1) a = decDigitsRev (b + 1) b := by
    have h2 := congrArg List.reverse hd
    simpa using h2
  calc a = valRevChars (decDigitsRev (a + 1) a) :=
        (valRev_decDigitsRev (a + 1) a (Nat.lt_succ_self a)).symm
    _ = valRevChars (decDigitsRev (b + 1) b) := by rw [hdd]
    _ = b := valRev_decDigitsRev (b + 1) b (Nat.lt_succ_self b)

theorem decDigit_ne_colon (n : Nat) : decDigit n ≠ ':' := by
  unfold decDigit
  split <;> decide

theorem mem_decDigitsRev_ne_colon : ∀ (fuel n : Nat) (c : Char),
    c ∈ decDigitsRev fuel n → c ≠ ':' := by
  intro fuel
  induction fuel with
  | zero => intro n c hc; simp [decDigitsRev] at hc
  | succ f ih =>
    intro n c hc
    by_cases h10 : n < 10
    · simp only [decDigitsRev, h10, if_true, List.mem_singleton] at hc
      exact hc ▸ decDigit_ne_colon n
    · simp only [decDigitsRev, h10, if_false, List.mem_cons] at hc
      cases hc with
      | inl hc => exact hc ▸ decDigit_ne_colon (n % 10)
      | inr hc => exact ih (n / 10) c hc

theorem natRepr_ne_colon (n : Nat) : ∀ c ∈ (natRepr n).data, c ≠ ':' := by
  intro c hc
  have hc2 : c ∈ decDigitsRev (n + 1) n := by
    have hc3 : c ∈ (decDigitsRev (n + 1) n).reverse := hc
    exact List.mem_reverse.mp hc3
  exact mem_decDigitsRev_ne_colon (n + 1) n c hc2

theorem takeWhile_ne_colon_append : ∀ (l1 l2 : List Char), (∀ c ∈ l1, c ≠ ':') →
    List.takeWhile (fun c => !(c == ':')) (l1 ++ ':' :: l2) = l1
  | [], l2, h => by simp [List.takeWhile_cons]
  | c :: l1, l2, h => by
    have hc : c ≠ ':' := h c (List.mem_cons_self c l1)
    have hb : (c == ':') = false := by simp [hc]
    simp only [List.cons_append, List.takeWhile_cons, hb, Bool.not_false, if_true]
    rw [takeWhile_ne_colon_append l1 l2 (fun x hx => h x (List.mem_cons_of_mem c hx))]

theorem origin_key_data (scheme host : String) (p : Nat) :
    (scheme ++ "://" ++ host ++ ":" ++ natRepr p).data =
      scheme.data ++ ':' :: '/' :: '/' :: (host.data ++ ':' :: (natRepr p).data) := by
  simp only [String.data_append, List.append_assoc]
  rfl

theorem origin_key_scheme_eq {s1 s2 h1 h2 : String} {p1 p2 : Nat}
    (hcol1 : ∀ c ∈ s1.data, c ≠ ':') (hcol2 : ∀ c ∈ s2.data, c ≠ ':')
    (heq : s1 ++ "://" ++ h1 ++ ":" ++ natRepr p1 = s2 ++ "://" ++ h2 ++ ":" ++ natRepr p2) :
    s1 = s2 := by
  have hd := congrArg String.data heq
  rw [origin_key_data, origin_key_data] at hd
  have t1 := takeWhile_ne_colon_append s1.data (('/') :: ('/') ::
    (h1.data ++ ':' :: (natRepr p1).data)) hcol1
  have t2 := takeWhile_ne_colon_append s2.data (('/') :: ('/') ::
    (h2.data ++ ':' :: (natRepr p2).data)) hcol2
  apply strExt
  rw [← t1, ← t2, hd]

theorem origin_key_host_port_eq {h1 h2 : String} {p1 p2 : Nat}
    (hcol1 : ∀ c ∈ h1.data, c ≠ ':') (hcol2 : ∀ c ∈ h2.data, c ≠ ':')
    (heq : ("https" : String) ++ "://" ++ h1 ++ ":" ++ natRepr p1 =
      ("https" : String) ++ "://" ++ h2 ++ ":" ++ natRepr p2) :
    h1 = h2 ∧ p1 = p2 := by
  have hd := congrArg String.data heq
  rw [origin_key_data, origin_key_data] at hd
  have hd2 : h1.data ++ ':' :: (natRepr p1).data = h2.data ++ ':' :: (natRepr p2).data := by
    have h3 := List.append_cancel_left hd
    simpa using h3
  have hh : h1.data = h2.data := by
    have t1 := takeWhile_ne_colon_append h1.data ((natRepr p1).data) hcol1
    have t2 := takeWhile_ne_colon_append h2.data ((natRepr p2).data) hcol2
    rw [← t1, ← t2, hd2]
  have hp : (natRepr p1).data = (natRepr p2).data := by
    rw [hh] at hd2
    have h4 := List.append_cancel_left hd2
    simpa using h4
  exact ⟨strExt hh, natRepr_inj (strExt hp)⟩

theorem origin_key_some {url : Url} {o : String} (h : origin_key url = some o) :
    ∃ h0 p0, url.host = some h0 ∧ url.port_or_known_default = some p0 ∧
      o = url.scheme ++ "://" ++ h0 ++ ":" ++ natRepr p0 := by
  unfold origin_key Url.host_str at h
  cases hh : url.host with
  | none => rw [hh] at h; exact absurd h (by simp)
  | some h0 =>
    rw [hh] at h
    cases hp : url.port_or_known_default with
    | none => rw [hp] at h; exact absurd h (by simp)
    | some p0 =>
      rw [hp] at h
      exact ⟨h0, p0, rfl, rfl, (Option.some.inj h).symm⟩

theorem should_use_h3_insert_other (c : AltSvcCache) (t : Nat) (k : String) (v : AltSvcEntry)
    (now : Nat) (url : Url) (hko : ∀ o, origin_key url = some o → o ≠ k) :
    AltSvcCache.should_use_h3 { c with advertised := mokaInsert c.advertised t k v } now url =
      c.should_use_h3 now url := by
  cases hk : origin_key url with
  | none => simp [AltSvcCache.should_use_h3, hk]
  | some o =>
    have hne := hko o hk
    simp only [AltSvcCache.should_use_h3, hk]
    simp only [mokaGet_insert_ne c.advertised_ttl c.advertised t k v now o hne]

theorem add_hint_should_use_other (c : AltSvcCache) (t : Nat) (host : String) (port : Nat)
    (now : Nat) (url : Url) (hko : ∀ o, origin_key url = some o → o ≠ hintKey host port) :
    (c.add_hint t host port).should_use_h3 now url = c.should_use_h3 now url := by
  by_cases hf : mokaContains c.failed_ttl c.failed t ("https://" ++ host ++ ":" ++ natRepr port) = true
  · have hid : c.add_hint t host port = c := by
      simp [AltSvcCache.add_hint, hf]
    rw [hid]
  · have hf2 := bool_not_true_eq_false hf
    have hins : c.add_hint t host port =
        { c with advertised := mokaInsert c.advertised t (hintKey host port) ⟨port, t + foreverSecs⟩ } := by
      simp [AltSvcCache.add_hint, hf2, hintKey]
    rw [hins]
    exact should_use_h3_insert_other c t (hintKey host port) ⟨port, t + foreverSecs⟩ now url hko

/-- C10: add_hint always keys its entry under the https scheme, so a hint
never changes the lookup result for a URL of any other scheme, nor for an
https URL whose host or effective port differs from the hinted ones.  The
colon-freedom hypotheses reflect the url crate's invariant that schemes and
registered host names contain no colon. -/
theorem c10_hint_https_only :
    (∀ (c : AltSvcCache) (t now : Nat) (host : String) (port : Nat) (url : Url),
      (∀ ch ∈ url.scheme.data, ch ≠ ':') → url.scheme ≠ "https" →
      (c.add_hint t host port).should_use_h3 now url = c.should_use_h3 now url) ∧
    (∀ (c : AltSvcCache) (t now : Nat) (host : String) (port : Nat) (url : Url)
      (h0 : String) (p0 : Nat),
      url.scheme = "https" → url.host = some h0 →
      (∀ ch ∈ h0.data, ch ≠ ':') → (∀ ch ∈ host.data, ch ≠ ':') →
      url.port_or_known_default = some p0 →
      (h0 ≠ host ∨ p0 ≠ port) →
      (c.add_hint t host port).should_use_h3 now url = c.should_use_h3 now url) := by
  have hlit : ("https://" : String) = "https" ++ "://" := rfl
  refine ⟨?_, ?_⟩
  · intro c t now host port url hcol hshm
    apply add_hint_should_use_other
    intro o hk hko
    obtain ⟨h0, p0, hhost, hport, ho⟩ := origin_key_some hk
    rw [ho] at hko
    rw [hintKey, hlit] at hko
    have hsch := origin_key_scheme_eq hcol (by decide) hko
    exact hshm hsch
  · intro c t now host port url h0 p0 hshm hhost hcolh hcolhost hport hne
    apply add_hint_should_use_other
    intro o hk hko
    obtain ⟨h0b, p0b, hhostb, hportb, ho⟩ := origin_key_some hk
    rw [hhost] at hhostb
    rw [hport] at hportb
    have hh0 : h0b = h0 := (Option.some.inj hhostb).symm
    have hp0 : p0b = p0 := (Option.some.inj hportb).symm
    rw [ho, hh0, hp0, hshm] at hko
    rw [hintKey, hlit] at hko
    have hboth := origin_key_host_port_eq hcolh hcolhost hko
    cases hne with
    | inl h1 => exact h1 hboth.1
    | inr h2 => exact h2 hboth.2

/-- Closed instance of c10_hint_https_only: a hint leaves lookups for an
http URL untouched, and likewise for the same https origin at another port. -/
theorem c10_hint_https_only_witness :
    (cNew.add_hint 0 "example.com" 443).should_use_h3 1 urlHttp =
        cNew.should_use_h3 1 urlHttp ∧
      (cNew.add_hint 0 "example.com" 8443).should_use_h3 1 urlEx =
        cNew.should_use_h3 1 urlEx :=
  ⟨c10_hint_https_only.1 cNew 0 1 "example.com" 443 urlHttp (by decide) (by decide),
    c10_hint_https_only.2 cNew 0 1 "example.com" 8443 urlEx "example.com" 443 rfl rfl
      (by decide) (by decide) rfl (Or.inr (by decide))⟩

theorem mokaContains_insert_ne {α : Type} (ttl : Nat) (tbl : List (String × MokaEntry α))
    (t : Nat) (k : String) (v : α) (now : Nat) (k2 : String) (h : k2 ≠ k) :
    mokaContains ttl (mokaInsert tbl t k v) now k2 = mokaContains ttl tbl now k2 := by
  unfold mokaContains
  rw [mokaGet_insert_ne ttl tbl t k v now k2 h]

theorem mokaContains_invalidate_ne {α : Type} (ttl : Nat) (tbl : List (String × MokaEntry α))
    (k : String) (now : Nat) (k2 : String) (h : k2 ≠ k) :
    mokaContains ttl (mokaInvalidate tbl k) now k2 = mokaContains ttl tbl now k2 := by
  unfold mokaContains
  rw [mokaGet_invalidate_ne ttl tbl k now k2 h]

theorem mokaContains_invalidate_self {α : Type} (ttl : Nat) (tbl : List (String × MokaEntry α))
    (k : String) (now : Nat) :
    mokaContains ttl (mokaInvalidate tbl k) now k = false := by
  unfold mokaContains
  rw [mokaGet_invalidate_self]
  rfl

theorem record_alt_svc_fields (c : AltSvcCache) (t : Nat) (url : Url) (p : Nat)
    (ma : Option Nat) :
    (c.record_alt_svc t url p ma).confirmed = c.confirmed ∧
    (c.record_alt_svc t url p ma).failed = c.failed ∧
    (c.record_alt_svc t url p ma).confirmed_ttl = c.confirmed_ttl ∧
    (c.record_alt_svc t url p ma).failed_ttl = c.failed_ttl := by
  cases hk : origin_key url with
  | none => simp [AltSvcCache.record_alt_svc, hk]
  | some o =>
    by_cases hf : mokaContains c.failed_ttl c.failed t o = true
    · simp [AltSvcCache.record_alt_svc, hk, hf]
    · have hf2 := bool_not_true_eq_false hf
      by_cases hc : mokaContains c.confirmed_ttl c.confirmed t o = true
      · simp [AltSvcCache.record_alt_svc, hk, hf2, hc]
      · have hc2 := bool_not_true_eq_false hc
        simp [AltSvcCache.record_alt_svc, hk, hf2, hc2]

theorem add_hint_fields (c : AltSvcCache) (t : Nat) (host : String) (port : Nat) :
    (c.add_hint t host port).confirmed = c.confirmed ∧
    (c.add_hint t host port).failed = c.failed ∧
    (c.add_hint t host port).confirmed_ttl = c.confirmed_ttl ∧
    (c.add_hint t host port).failed_ttl = c.failed_ttl := by
  by_cases hf : mokaContains c.failed_ttl c.failed t ("https://" ++ host ++ ":" ++ natRepr port) = true
  · simp [AltSvcCache.add_hint, hf]
  · have hf2 := bool_not_true_eq_false hf
    simp [AltSvcCache.add_hint, hf2]

theorem confirm_h3_fields (c : AltSvcCache) (t : Nat) (url : Url) (o : String)
    (hk : origin_key url = some o) :
    (c.confirm_h3 t url).failed = c.failed ∧
    (c.confirm_h3 t url).failed_ttl = c.failed_ttl ∧
    (c.confirm_h3 t url).confirmed_ttl = c.confirmed_ttl ∧
    ∃ v, (c.confirm_h3 t url).confirmed = mokaInsert c.confirmed t o v := by
  simp only [AltSvcCache.confirm_h3, hk]
  cases ha : mokaGet c.advertised_ttl c.advertised t o with
  | some e =>
    exact ⟨rfl, rfl, rfl, ⟨e.port, t + c.confirmed_ttl⟩, rfl⟩
  | none =>
    cases hc : mokaGet c.confirmed_ttl c.confirmed t o with
    | some e =>
      exact ⟨rfl, rfl, rfl, ⟨e.port, t + c.confirmed_ttl⟩, rfl⟩
    | none =>
      exact ⟨rfl, rfl, rfl, ⟨(url.port_or_known_default).getD 443, t + c.confirmed_ttl⟩, rfl⟩

theorem record_h3_failure_eq (c : AltSvcCache) (t : Nat) (url : Url) (o : String)
    (hk : origin_key url = some o) :
    c.record_h3_failure t url =
      { c with
        advertised := mokaInvalidate c.advertised o,
        confirmed := mokaInvalidate c.confirmed o,
        failed := mokaInsert c.failed t o () } := by
  simp [AltSvcCache.record_h3_failure, hk]

theorem confLive_congr {c1 c2 : AltSvcCache} (hconf : c1.confirmed = c2.confirmed)
    (httl : c1.confirmed_ttl = c2.confirmed_ttl) (now : Nat) (o : String) :
    confLive c1 now o = confLive c2 now o := by
  unfold confLive
  rw [hconf, httl]

theorem failLive_congr {c1 c2 : AltSvcCache} (hfail : c1.failed = c2.failed)
    (httl : c1.failed_ttl = c2.failed_ttl) (now : Nat) (o : String) :
    failLive c1 now o = failLive c2 now o := by
  unfold failLive
  rw [hfail, httl]

theorem inv_step (c : AltSvcCache) (op : CacheOp) (T : Nat)
    (hInv : ∀ now o, T ≤ now → ¬(confLive c now o = true ∧ failLive c now o = true))
    (hT : T ≤ opTime op)
    (hguard : opGuard c op = true) :
    ∀ now o, opTime op ≤ now →
      ¬(confLive (applyOp c op) now o = true ∧ failLive (applyOp c op) now o = true) := by
  intro now o hnow hboth
  cases op with
  | recordAltSvc t url p ma =>
    simp only [applyOp] at hboth
    simp only [opTime] at hnow
    obtain ⟨hcf, hff, hct, hft⟩ := record_alt_svc_fields c t url p ma
    rw [confLive_congr hcf hct now o, failLive_congr hff hft now o] at hboth
    exact hInv now o (Nat.le_trans hT hnow) hboth
  | addHint t host port =>
    simp only [applyOp] at hboth
    simp only [opTime] at hnow
    obtain ⟨hcf, hff, hct, hft⟩ := add_hint_fields c t host port
    rw [confLive_congr hcf hct now o, failLive_congr hff hft now o] at hboth
    exact hInv now o (Nat.le_trans hT hnow) hboth
  | confirmH3 t url =>
    simp only [applyOp] at hboth
    simp only [opTime] at hnow hT
    cases hk : origin_key url with
    | none =>
      have hid : c.confirm_h3 t url = c := by simp [AltSvcCache.confirm_h3, hk]
      rw [hid] at hboth
      exact hInv now o (Nat.le_trans hT hnow) hboth
    | some o0 =>
      obtain ⟨hff, hft, hct, v, hcf⟩ := confirm_h3_fields c t url o0 hk
      simp only [opGuard, hk] at hguard
      have hgf : failLive c t o0 = false := by
        cases hfl0 : failLive c t o0
        · rfl
        · rw [hfl0] at hguard
          exact absurd hguard (by decide)
      obtain ⟨hcl, hfl⟩ := hboth
      rw [failLive_congr hff hft now o] at hfl
      by_cases ho : o = o0
      · subst ho
        have h5 : failLive c t o = true := mokaContains_earlier hfl hnow
        rw [h5] at hgf
        exact absurd hgf (by decide)
      · have hcl2 : mokaContains c.confirmed_ttl (mokaInsert c.confirmed t o0 v) now o = true := by
          have h6 : confLive (c.confirm_h3 t url) now o =
              mokaContains c.confirmed_ttl (mokaInsert c.confirmed t o0 v) now o := by
            unfold confLive
            rw [hct, hcf]
          rw [h6] at hcl
          exact hcl
        rw [mokaContains_insert_ne c.confirmed_ttl c.confirmed t o0 v now o ho] at hcl2
        exact hInv now o (Nat.le_trans hT hnow) ⟨hcl2, hfl⟩
  | recordFailure t url =>
    simp only [applyOp] at hboth
    simp only [opTime] at hnow
    cases hk : origin_key url with
    | none =>
      have hid : c.record_h3_failure t url = c := by simp [AltSvcCache.record_h3_failure, hk]
      rw [hid] at hboth
      exact hInv now o (Nat.le_trans hT hnow) hboth
    | some o0 =>
      rw [record_h3_failure_eq c t url o0 hk] at hboth
      obtain ⟨hcl, hfl⟩ := hboth
      have hcl2 : mokaContains c.confirmed_ttl (mokaInvalidate c.confirmed o0) now o = true := hcl
      have hfl2 : mokaContains c.failed_ttl (mokaInsert c.failed t o0 ()) now o = true := hfl
      by_cases ho : o = o0
      · subst ho
        rw [mokaContains_invalidate_self c.confirmed_ttl c.confirmed o now] at hcl2
        exact absurd hcl2 (by decide)
      · rw [mokaContains_invalidate_ne c.confirmed_ttl c.confirmed o0 now o ho] at hcl2
        rw [mokaContains_insert_ne c.failed_ttl c.failed t o0 () now o ho] at hfl2
        exact hInv now o (Nat.le_trans hT hnow) ⟨hcl2, hfl2⟩

theorem inv_run (ops : List CacheOp) : ∀ (c : AltSvcCache) (T : Nat),
    (∀ now o, T ≤ now → ¬(confLive c now o = true ∧ failLive c now o = true)) →
    chron T ops = true → safeOps c ops = true →
    ∀ now o, endTime T ops ≤ now →
      ¬(confLive (applyOps c ops) now o = true ∧ failLive (applyOps c ops) now o = true) := by
  induction ops with
  | nil =>
    intro c T hInv _ _ now o hle
    exact hInv now o hle
  | cons op rest ih =>
    intro c T hInv hchron hsafe now o hle
    simp only [chron, Bool.and_eq_true, decide_eq_true_eq] at hchron
    simp only [safeOps, Bool.and_eq_true] at hsafe
    exact ih (applyOp c op) (opTime op) (inv_step c op T hInv hchron.1 hsafe.1)
      hchron.2 hsafe.2 now o hle

theorem chron_take (n : Nat) : ∀ (T : Nat) (ops : List CacheOp),
    chron T ops = true → chron T (ops.take n) = true := by
  induction n with
  | zero => intro T ops h; rfl
  | succ m ih =>
    intro T ops h
    cases ops with
    | nil => exact h
    | cons op rest =>
      simp only [chron, Bool.and_eq_true] at h
      simp only [List.take, chron, Bool.and_eq_true]
      exact ⟨h.1, ih (opTime op) rest h.2⟩

theorem safeOps_take (n : Nat) : ∀ (c : AltSvcCache) (ops : List CacheOp),
    safeOps c ops = true → safeOps c (ops.take n) = true := by
  induction n with
  | zero => intro c ops h; rfl
  | succ m ih =>
    intro c ops h
    cases ops with
    | nil => exact h
    | cons op rest =>
      simp only [safeOps, Bool.and_eq_true] at h
      simp only [List.take, safeOps, Bool.and_eq_true]
      exact ⟨h.1, ih (applyOp c op) rest h.2⟩

/-- C1 (amended): starting from a fresh cache, along any chronological
sequence of cache operations in which confirm_h3 is never applied to an
origin whose Failed marker is live at that moment, no reachable state has,
at any instant from the last applied operation on, both a Confirmed entry
and a Failed marker live for the same origin.  (As the counterexample shows,
the restriction on confirm_h3 is necessary: confirm_h3 neither consults nor
clears the Failed marker, so confirming while the marker is live produces a
state with both live, and the original claim over all sequences fails.) -/
theorem c1_no_coexistence (attl cttl fttl cap : Nat) (ops : List CacheOp) (n : Nat)
    (hchron : chron 0 ops = true)
    (hsafe : safeOps (AltSvcCache.new attl cttl fttl cap) ops = true) :
    ∀ now o, endTime 0 (ops.take n) ≤ now →
      ¬(confLive (applyOps (AltSvcCache.new attl cttl fttl cap) (ops.take n)) now o = true ∧
        failLive (applyOps (AltSvcCache.new attl cttl fttl cap) (ops.take n)) now o = true) := by
  have hInv : ∀ now o, (0 : Nat) ≤ now →
      ¬(confLive (AltSvcCache.new attl cttl fttl cap) now o = true ∧
        failLive (AltSvcCache.new attl cttl fttl cap) now o = true) := by
    intro now o _ hb
    have hc := hb.1
    simp [confLive, mokaContains, mokaGet, AltSvcCache.new] at hc
  exact inv_run (ops.take n) (AltSvcCache.new attl cttl fttl cap) 0 hInv
    (chron_take n 0 ops hchron) (safeOps_take n (AltSvcCache.new attl cttl fttl cap) ops hsafe)

/-- Counterexample to C1 as stated: applying record_h3_failure at instant 0
and then confirm_h3 at instant 1 to a fresh cache leaves, at instant 2, both
a live Confirmed entry and a live Failed marker for the same origin. -/
theorem c1_counterexample :
    confLive cFailConfEx 2 keyEx = true ∧ failLive cFailConfEx 2 keyEx = true := by decide

/-- Closed instance of c1_no_coexistence on a safe two-operation sequence:
the confirmation happens only after the failure marker expired, and the
reached state never has both live. -/
theorem c1_no_coexistence_witness :
    ¬(confLive (applyOps (AltSvcCache.new 100 100 100 10) (opsEx.take 2)) 200 keyEx = true ∧
      failLive (applyOps (AltSvcCache.new 100 100 100 10) (opsEx.take 2)) 200 keyEx = true) :=
  c1_no_coexistence 100 100 100 10 opsEx 2 (by decide) (by decide) 200 keyEx (by decide)
